import Mathlib

/-!
Verification of the RandomPic build pipeline and its generated client script.

The definitions below are a shallow embedding of the TypeScript source
(`src/index.ts`) and of the generated client script (`src/random.js`):

* `shuffle` embeds the in-place Fisher–Yates loop of `src/index.ts`
  (`function shuffle`), with the stream of values
  `Math.floor(Math.random() * (i + 1))` abstracted as a function
  `rnd : Nat → Nat` giving the chosen partner index at loop counter `i`.
* `filterImages`, `processImages`, `mainManifest` embed the classification
  and transcoding orchestration of `processImages` / `main`, with the file
  system abstracted as an `Except`-valued directory listing and the
  per-image success of `sharp(...).toFile(...)` as a predicate.
* `getRandomUrl` embeds the generated client function of the same name,
  including JavaScript truthiness of the count lookup and of the session
  caches, and property lookup falling through to `Object.prototype`.
-/

namespace RandomPic

open scoped List

universe u

variable {α : Type u}

/-- Extension allow-list, from `VALID_EXTENSIONS` in `src/index.ts`. -/
def VALID_EXTENSIONS : List String :=
  [".jpg", ".jpeg", ".png", ".webp", ".gif", ".avif", ".tiff"]

/-- Output root, from `DEST_DIR` in `src/index.ts`. -/
def DEST_DIR : String := "dest"

/-- One iteration of the swap `[array[i], array[j]] = [array[j], array[i]]`
in `shuffle` (`src/index.ts`): both right-hand sides are read from the
original list, then written back.  Out-of-range indices leave the list
unchanged (the JavaScript loop only ever produces in-range indices). -/
def swapL (l : List α) (i j : Nat) : List α :=
  if hi : i < l.length then
    if hj : j < l.length then
      (l.set i (l.get ⟨j, hj⟩)).set j (l.get ⟨i, hi⟩)
    else l
  else l

/-- The descending loop `for (let i = array.length - 1; i > 0; i--)` of
`shuffle` in `src/index.ts`: at counter `i` the element at `i` is swapped
with the element at `rnd i` (the value `Math.floor(Math.random() * (i+1))`),
and the loop stops once the counter reaches `0`. -/
def shuffleAux (rnd : Nat → Nat) : List α → Nat → List α
  | l, 0 => l
  | l, i + 1 => shuffleAux rnd (swapL l (i + 1) (rnd (i + 1))) i

/-- The Fisher–Yates `shuffle` of `src/index.ts`, starting its loop at
`array.length - 1`. -/
def shuffle (rnd : Nat → Nat) (l : List α) : List α :=
  shuffleAux rnd l (l.length - 1)

/-- Path of the transcoded output for a given category and assigned index:
`join(join(DEST_DIR, type), index + ".webp")` in `processImages`
(`src/index.ts`). -/
def outputPath (ty : String) (index : Nat) : String :=
  DEST_DIR ++ "/" ++ ty ++ "/" ++ toString index ++ ".webp"

/-- The index assignment of `processImages` (`src/index.ts`): after
`files = shuffle(files)`, the call `files.map(async (file, index) => ...)`
pairs each file with its position in the shuffled list. -/
def renumber (rnd : Nat → Nat) (files : List String) : List (Nat × String) :=
  (shuffle rnd files).enum

/-- Position (from the front) of the last `'.'` in a character list, if
any; used to embed Node's `path.extname` for directory entries (which
contain no path separator). -/
def lastDot : List Char → Option Nat
  | [] => none
  | c :: rest =>
    match lastDot rest with
    | some i => some (i + 1)
    | none => if c = '.' then some 0 else none

/-- Node's `path.extname` restricted to plain directory entries: the
substring from the last `'.'` to the end, or `""` when there is no dot or
the only dot starts the name (a dotfile has no extension). -/
def extname (s : String) : String :=
  match lastDot s.data with
  | none => ""
  | some 0 => ""
  | some i => ⟨s.data.drop i⟩

/-- JavaScript's `toLowerCase` on extension strings: each character is
mapped to its lower-case form (`Char.toLower`; the extensions compared
against are plain ASCII). -/
def toLowerCase (s : String) : String :=
  ⟨s.data.map Char.toLower⟩

/-- The extension filter of `processImages` (`src/index.ts`):
`entries.filter(file => VALID_EXTENSIONS.includes(extname(file).toLowerCase()))`. -/
def filterImages (entries : List String) : List String :=
  entries.filter fun file => VALID_EXTENSIONS.contains (toLowerCase (extname file))

/-- Result of one `processImages` call: the returned count, the output
paths actually written by successful transcodes, and whether the
directory-read warning was logged. -/
structure ProcessResult where
  count : Nat
  produced : List String
  warned : Bool
  deriving Repr, DecidableEq

/-- Embedding of `processImages` (`src/index.ts`).  The directory read is
abstracted as `dir : Except String (List String)` (`readdir` either throws
or yields the entries), and the success of each `sharp(...).toFile(...)`
transcode as `success : String → Bool` on the source filename.  On a read
failure the function warns and returns count `0`; otherwise it filters,
shuffles, writes one output per successfully transcoded file at the path
keyed by its assigned index, and returns `files.length` — note the
returned count ignores transcode failures. -/
def processImages (rnd : Nat → Nat) (success : String → Bool) (ty : String)
    (dir : Except String (List String)) : ProcessResult :=
  match dir with
  | .error _ => { count := 0, produced := [], warned := true }
  | .ok entries =>
    let files := shuffle rnd (filterImages entries)
    if files.length = 0 then
      { count := 0, produced := [], warned := false }
    else
      { count := files.length
        produced := files.enum.filterMap fun p =>
          if success p.2 then some (outputPath ty p.1) else none
        warned := false }

/-- The manifest record of `src/index.ts` (`interface Manifest`). -/
structure Manifest where
  h : Nat
  v : Nat
  generated_at : String
  deriving Repr, DecidableEq

/-- Embedding of the manifest construction in `main` (`src/index.ts`):
`h` and `v` are the values returned by the two `processImages` calls and
`generated_at` is the capture of the current time. -/
def mainManifest (rndH rndV : Nat → Nat) (success : String → Bool)
    (dirH dirV : Except String (List String)) (now : String) : Manifest :=
  { h := (processImages rndH success "h" dirH).count
    v := (processImages rndV success "v" dirV).count
    generated_at := now }

/-- A JavaScript value read by the property lookup `counts[type]` in the
generated `getRandomUrl` (`src/random.js`): a number for the own keys
`h` and `v`, a truthy non-numeric value for a property inherited from
`Object.prototype`, or `undefined` for anything else. -/
inductive JSVal where
  | num : Nat → JSVal
  | inherited : JSVal
  | notDefined : JSVal
  deriving Repr, DecidableEq

/-- The property names every plain object literal inherits from
`Object.prototype`, for which `counts[type]` is a defined, truthy,
non-numeric value. -/
def protoProps : List String :=
  ["constructor", "hasOwnProperty", "isPrototypeOf", "propertyIsEnumerable",
   "toLocaleString", "toString", "valueOf", "__defineGetter__",
   "__defineSetter__", "__lookupGetter__", "__lookupSetter__", "__proto__"]

/-- Runtime state of the generated client script: the frozen counts and
normalized domain plus the two session caches (`sessionRandomH`,
`sessionRandomV`, both `null` initially) and the number of `Math.random()`
calls made so far. -/
structure ClientState where
  hCount : Nat
  vCount : Nat
  domain : String
  sessionRandomH : Option String
  sessionRandomV : Option String
  draws : Nat
  deriving Repr, DecidableEq

/-- JavaScript property lookup `counts[type]` on the object literal
`{ h: ..., v: ... }`, falling through to `Object.prototype` for inherited
property names and to `undefined` otherwise. -/
def lookupCounts (st : ClientState) (t : String) : JSVal :=
  if t = "h" then .num st.hCount
  else if t = "v" then .num st.vCount
  else if t ∈ protoProps then .inherited
  else .notDefined

/-- JavaScript truthiness of a session cache slot: `null` is falsy and a
string is truthy exactly when it is non-empty. -/
def cacheTruthy : Option String → Bool
  | none => false
  | some s => s ≠ ""

/-- The string form of `Math.floor(Math.random() * counts[type])`: a
decimal numeral when the count is a number (`r` abstracts the draw for
that bound), and `"NaN"` when the lookup produced a non-numeric value. -/
def jsIdxString (cv : JSVal) (r : Nat → Nat) : String :=
  match cv with
  | .num c => toString (r c)
  | _ => "NaN"

/-- Embedding of `getRandomUrl` in the generated client script
(`src/random.js`): returns the result string and the updated state.
`rand k n` abstracts the `k`-th `Math.random()` draw scaled to bound `n`.
The branches mirror the source line by line: the guard
`!counts[type] || counts[type] === 0`, the two truthiness-based session
cache checks, the draw, the URL composition with the domain prefix, and
the cache update. -/
def getRandomUrl (rand : Nat → Nat → Nat) (st : ClientState) (t : String) :
    String × ClientState :=
  let cv := lookupCounts st t
  if cv = JSVal.notDefined ∨ cv = JSVal.num 0 then ("", st)
  else if t = "h" ∧ cacheTruthy st.sessionRandomH then
    (st.sessionRandomH.getD "", st)
  else if t = "v" ∧ cacheTruthy st.sessionRandomV then
    (st.sessionRandomV.getD "", st)
  else
    let url := (if st.domain = "" then "" else st.domain ++ "/") ++ t ++ "/"
      ++ jsIdxString cv (rand st.draws) ++ ".webp"
    (url,
      { st with
        draws := st.draws + 1
        sessionRandomH := if t = "h" then some url else st.sessionRandomH
        sessionRandomV := if t = "v" then some url else st.sessionRandomV })

/-- The public entry point `window.getRandomPicH` of the generated
script. -/
def getRandomPicH (rand : Nat → Nat → Nat) (st : ClientState) :
    String × ClientState :=
  getRandomUrl rand st "h"

/-- The public entry point `window.getRandomPicV` of the generated
script. -/
def getRandomPicV (rand : Nat → Nat → Nat) (st : ClientState) :
    String × ClientState :=
  getRandomUrl rand st "v"

/-- Domain normalization at script start (`src/random.js`):
`if (domain && domain.endsWith('/')) domain = domain.slice(0, -1)`.
For the one-character suffix `'/'`, `endsWith` holds exactly when the last
character is `'/'`, and `slice(0, -1)` drops that last character. -/
def normalizeDomain (d : String) : String :=
  if d ≠ "" ∧ d.data.getLast? = some '/' then ⟨d.data.dropLast⟩ else d

/-- The state of a freshly loaded script instance, as emitted by
`generateClientJS` (`src/index.ts`): manifest counts baked in, the domain
normalized, both session caches `null`. -/
def clientInit (h v : Nat) (d : String) : ClientState :=
  { hCount := h, vCount := v, domain := normalizeDomain d
    sessionRandomH := none, sessionRandomV := none, draws := 0 }

/-- Run a sequence of `getRandomUrl` calls, threading the state and
recording each call's argument together with its result. -/
def runCalls (rand : Nat → Nat → Nat) (st : ClientState) :
    List String → List (String × String) × ClientState
  | [] => ([], st)
  | t :: ts =>
    let r := getRandomUrl rand st t
    let rest := runCalls rand r.2 ts
    ((t, r.1) :: rest.1, rest.2)

/-- The session cache slot read by `getRandomUrl` for a category. -/
def sessionOf (st : ClientState) (cat : String) : Option String :=
  if cat = "h" then st.sessionRandomH else st.sessionRandomV

/-- The count consulted by `getRandomUrl` for a category. -/
def countOf (st : ClientState) (cat : String) : Nat :=
  if cat = "h" then st.hCount else st.vCount

/-- A URL of the published form for domain `d`, category `cat` and some
index below the category count `c`. -/
def GoodUrl (d cat : String) (c : Nat) (s : String) : Prop :=
  ∃ idx : Nat, idx < c ∧
    s = normalizeDomain d ++ "/" ++ cat ++ "/" ++ toString idx ++ ".webp"

/-- Invariant maintained by the client state along any run from
`clientInit h v d`: configuration fixed, and every cached URL is of the
published form for its category. -/
def GoodState (d : String) (h v : Nat) (st : ClientState) : Prop :=
  st.domain = normalizeDomain d ∧ st.hCount = h ∧ st.vCount = v
  ∧ (∀ u, st.sessionRandomH = some u → GoodUrl d "h" h u)
  ∧ (∀ u, st.sessionRandomV = some u → GoodUrl d "v" v u)

/-- Prepending the element sitting at position `j` to the list with `x`
written at position `j` is a permutation of prepending `x` itself. -/
theorem cons_get_set_perm (xs : List α) :
    ∀ (j : Nat) (hj : j < xs.length) (x : α),
      xs.get ⟨j, hj⟩ :: xs.set j x ~ x :: xs := by
  induction xs with
  | nil => intro j hj x; simp at hj
  | cons y ys ih =>
    intro j hj x
    cases j with
    | zero =>
      simpa using List.Perm.swap x y ys
    | succ k =>
      have hk : k < ys.length := by simpa using hj
      show ys.get ⟨k, hk⟩ :: y :: ys.set k x ~ x :: y :: ys
      calc ys.get ⟨k, hk⟩ :: y :: ys.set k x
          ~ y :: ys.get ⟨k, hk⟩ :: ys.set k x :=
            List.Perm.swap y (ys.get ⟨k, hk⟩) (ys.set k x)
        _ ~ y :: x :: ys := (ih k hk x).cons y
        _ ~ x :: y :: ys := List.Perm.swap x y ys

/-- Writing the element of position `j` to position `i` and the element of
position `i` to position `j` permutes the list. -/
theorem set_set_perm (l : List α) :
    ∀ (i j : Nat) (hi : i < l.length) (hj : j < l.length),
      (l.set i (l.get ⟨j, hj⟩)).set j (l.get ⟨i, hi⟩) ~ l := by
  induction l with
  | nil => intro i j hi hj; simp at hi
  | cons x xs ih =>
    intro i j hi hj
    cases i with
    | zero =>
      cases j with
      | zero =>
        show x :: xs ~ x :: xs
        exact List.Perm.refl _
      | succ k =>
        have hk : k < xs.length := by simpa using hj
        show xs.get ⟨k, hk⟩ :: xs.set k x ~ x :: xs
        exact cons_get_set_perm xs k hk x
    | succ m =>
      have hm : m < xs.length := by simpa using hi
      cases j with
      | zero =>
        show xs.get ⟨m, hm⟩ :: xs.set m x ~ x :: xs
        exact cons_get_set_perm xs m hm x
      | succ k =>
        have hk : k < xs.length := by simpa using hj
        show x :: (xs.set m (xs.get ⟨k, hk⟩)).set k (xs.get ⟨m, hm⟩) ~ x :: xs
        exact (ih m k hm hk).cons x

/-- A single swap step is a permutation. -/
theorem swapL_perm (l : List α) (i j : Nat) : swapL l i j ~ l := by
  unfold swapL
  split
  · split
    · exact set_set_perm l i j (by assumption) (by assumption)
    · exact List.Perm.refl l
  · exact List.Perm.refl l

/-- Every run of the shuffle loop is a permutation of its input. -/
theorem shuffleAux_perm (rnd : Nat → Nat) :
    ∀ (i : Nat) (l : List α), shuffleAux rnd l i ~ l := by
  intro i
  induction i with
  | zero => intro l; exact List.Perm.refl l
  | succ n ih =>
    intro l
    exact (ih _).trans (swapL_perm l (n + 1) (rnd (n + 1)))

/-- `shuffle` permutes its input, for every stream of random choices. -/
theorem shuffle_perm (rnd : Nat → Nat) (l : List α) : shuffle rnd l ~ l :=
  shuffleAux_perm rnd (l.length - 1) l

/-- `shuffle` preserves the length of its input. -/
theorem shuffle_length (rnd : Nat → Nat) (l : List α) :
    (shuffle rnd l).length = l.length :=
  (shuffle_perm rnd l).length_eq

/-- The count returned by `processImages` depends only on the directory
listing: it is the number of recognized entries, whatever the random
choices and whatever the transcode outcomes. -/
theorem processImages_count (rnd : Nat → Nat) (success : String → Bool)
    (ty : String) (dir : Except String (List String)) :
    (processImages rnd success ty dir).count
      = match dir with
        | .error _ => 0
        | .ok entries => (filterImages entries).length := by
  cases dir with
  | error e => rfl
  | ok entries =>
    simp only [processImages]
    split_ifs with hlen
    · rw [shuffle_length] at hlen
      simp [hlen]
    · simp [shuffle_length]

/-- C1: for every non-empty list of classified files in a category, the
Shuffle-Renumber Engine produces a permutation of that list — the multiset
of input files equals the multiset of files assigned to indices `0..n-1`,
the assigned indices are exactly the range `0..n-1` (no duplicate, no
gap), and each output asset path is derived from its assigned index as
`<category>/<index>.webp` inside the output root. -/
theorem shuffle_renumber_is_permutation (rnd : Nat → Nat) (ty : String)
    (files : List String) (_hne : files ≠ []) :
    ((renumber rnd files).map Prod.snd ~ files)
    ∧ (renumber rnd files).map Prod.fst = List.range files.length
    ∧ (renumber rnd files).map (fun p => outputPath ty p.1)
        = (List.range files.length).map
            (fun i => DEST_DIR ++ "/" ++ ty ++ "/" ++ toString i ++ ".webp") := by
  have hfst : (renumber rnd files).map Prod.fst = List.range files.length := by
    rw [renumber, List.enum_map_fst, shuffle_length]
  refine ⟨?_, hfst, ?_⟩
  · rw [renumber, List.enum_map_snd]
    exact shuffle_perm rnd files
  · have hcomp : (fun p : Nat × String => outputPath ty p.1)
        = (outputPath ty ∘ Prod.fst) := rfl
    rw [hcomp, ← List.map_map, hfst]
    rfl

/-- Witness for `shuffle_renumber_is_permutation` at a concrete three-file
listing and the identity random stream (every swap is then a no-op). -/
theorem shuffle_renumber_is_permutation_witness :
    (["a.jpg", "b.png", "c.gif"] : List String) ≠ []
    ∧ (((renumber (fun i => i) ["a.jpg", "b.png", "c.gif"]).map Prod.snd
          ~ ["a.jpg", "b.png", "c.gif"])
       ∧ (renumber (fun i => i) ["a.jpg", "b.png", "c.gif"]).map Prod.fst
           = List.range (["a.jpg", "b.png", "c.gif"] : List String).length
       ∧ (renumber (fun i => i) ["a.jpg", "b.png", "c.gif"]).map
             (fun p => outputPath "h" p.1)
           = (List.range (["a.jpg", "b.png", "c.gif"] : List String).length).map
               (fun i => DEST_DIR ++ "/" ++ "h" ++ "/" ++ toString i ++ ".webp")) :=
  ⟨by decide,
   shuffle_renumber_is_permutation (fun i => i) "h" ["a.jpg", "b.png", "c.gif"]
     (by decide)⟩

/-- C2: the count folded into the manifest is the number of discovered
source files, not the number of successful transcodes.  With two
recognized files of which the transcode of `a.jpg` fails, `processImages`
still returns count `2` while only one output asset is produced. -/
theorem manifest_count_ignores_failures :
    (processImages (fun _ => 0) (fun f => f == "b.jpg") "h"
        (.ok ["a.jpg", "b.jpg"])).count = 2
    ∧ ((processImages (fun _ => 0) (fun f => f == "b.jpg") "h"
        (.ok ["a.jpg", "b.jpg"])).produced).length = 1 :=
  ⟨rfl, rfl⟩

/-- C6: the Category Classifier retains exactly the entries whose
extension, lowercased, belongs to the allow-list; on the listing
`a.jpg, b.png, c.txt, d.PNG` it keeps exactly `3` entries. -/
theorem classifier_extension_filter :
    (∀ (entries : List String) (f : String),
        f ∈ filterImages entries ↔
          f ∈ entries ∧ toLowerCase (extname f) ∈ VALID_EXTENSIONS)
    ∧ (filterImages ["a.jpg", "b.png", "c.txt", "d.PNG"]).length = 3 := by
  constructor
  · intro entries f
    simp [filterImages, List.mem_filter]
  · decide

/-- C7: a failed directory read makes `processImages` report count `0`
with the warning logged, and the manifest for the other category is built
from its own listing exactly as if the failure had not happened. -/
theorem missing_directory_zero_count (rndH rndV : Nat → Nat)
    (success : String → Bool) (e : String)
    (dirV : Except String (List String)) (now : String) :
    processImages rndH success "h" (.error e)
        = { count := 0, produced := [], warned := true }
    ∧ mainManifest rndH rndV success (.error e) dirV now
        = { h := 0, v := (processImages rndV success "v" dirV).count,
            generated_at := now } :=
  ⟨rfl, rfl⟩

/-- C8: for input lists of length `0` or `1` the shuffle loop body never
runs, so the shuffle is a no-op for every random stream. -/
theorem shuffle_noop_small (rnd : Nat → Nat) (a : α) :
    shuffle rnd ([] : List α) = [] ∧ shuffle rnd [a] = [a] :=
  ⟨rfl, rfl⟩

/-- Appending the fixed extension suffix never yields the empty string. -/
theorem append_webp_ne_empty (s : String) : s ++ ".webp" ≠ "" := by
  intro h
  have h2 : (s ++ ".webp").length = ("" : String).length :=
    congrArg String.length h
  rw [String.length_append] at h2
  have h5 : (".webp" : String).length = 5 := rfl
  have h0 : ("" : String).length = 0 := rfl
  omega

/-- Reduction of `getRandomUrl` at the category `"h"`: the zero-count
guard, then the session-cache check, then the draw that caches the fresh
URL. -/
theorem getRandomUrl_h_eq (rand : Nat → Nat → Nat) (st : ClientState) :
    getRandomUrl rand st "h" =
      if st.hCount = 0 then ("", st)
      else if cacheTruthy st.sessionRandomH then (st.sessionRandomH.getD "", st)
      else ((if st.domain = "" then "" else st.domain ++ "/") ++ "h" ++ "/"
              ++ toString (rand st.draws st.hCount) ++ ".webp",
            { st with
              draws := st.draws + 1
              sessionRandomH := some ((if st.domain = "" then ""
                  else st.domain ++ "/") ++ "h" ++ "/"
                ++ toString (rand st.draws st.hCount) ++ ".webp") }) := by
  by_cases h0 : st.hCount = 0
  · simp [getRandomUrl, lookupCounts, h0]
  · by_cases htr : cacheTruthy st.sessionRandomH
    · simp [getRandomUrl, lookupCounts, h0, htr]
    · simp [getRandomUrl, lookupCounts, jsIdxString, h0, htr]

/-- Reduction of `getRandomUrl` at the category `"v"`. -/
theorem getRandomUrl_v_eq (rand : Nat → Nat → Nat) (st : ClientState) :
    getRandomUrl rand st "v" =
      if st.vCount = 0 then ("", st)
      else if cacheTruthy st.sessionRandomV then (st.sessionRandomV.getD "", st)
      else ((if st.domain = "" then "" else st.domain ++ "/") ++ "v" ++ "/"
              ++ toString (rand st.draws st.vCount) ++ ".webp",
            { st with
              draws := st.draws + 1
              sessionRandomV := some ((if st.domain = "" then ""
                  else st.domain ++ "/") ++ "v" ++ "/"
                ++ toString (rand st.draws st.vCount) ++ ".webp") }) := by
  by_cases h0 : st.vCount = 0
  · simp [getRandomUrl, lookupCounts, h0]
  · by_cases htr : cacheTruthy st.sessionRandomV
    · simp [getRandomUrl, lookupCounts, h0, htr]
    · simp [getRandomUrl, lookupCounts, jsIdxString, h0, htr]

/-- Reduction of `getRandomUrl` at an argument that is not an own key of
the counts object: an inherited `Object.prototype` name produces a `NaN`
URL and consumes a draw, anything else returns the empty string with the
state untouched. -/
theorem getRandomUrl_other_eq (rand : Nat → Nat → Nat) (st : ClientState)
    (t : String) (h1 : t ≠ "h") (h2 : t ≠ "v") :
    getRandomUrl rand st t =
      if t ∈ protoProps then
        ((if st.domain = "" then "" else st.domain ++ "/") ++ t ++ "/"
            ++ "NaN" ++ ".webp",
         { st with draws := st.draws + 1 })
      else ("", st) := by
  by_cases hp : t ∈ protoProps
  · simp [getRandomUrl, lookupCounts, jsIdxString, h1, h2, hp]
  · simp [getRandomUrl, lookupCounts, h1, h2, hp]

/-- `countOf` at `"h"`. -/
theorem countOf_h (st : ClientState) : countOf st "h" = st.hCount := rfl

/-- `countOf` at `"v"`. -/
theorem countOf_v (st : ClientState) : countOf st "v" = st.vCount := rfl

/-- `sessionOf` at `"h"`. -/
theorem sessionOf_h (st : ClientState) :
    sessionOf st "h" = st.sessionRandomH := rfl

/-- `sessionOf` at `"v"`. -/
theorem sessionOf_v (st : ClientState) :
    sessionOf st "v" = st.sessionRandomV := rfl

/-- A cache slot holding a non-empty string is truthy. -/
theorem cacheTruthy_some (u : String) (hne : u ≠ "") (o : Option String)
    (ho : o = some u) : cacheTruthy o = true := by
  subst ho
  simpa [cacheTruthy] using hne

/-- When the session cache for a category already holds a (truthy)
string and the category's count is non-zero, `getRandomUrl` returns the
cached string and leaves the state untouched. -/
theorem getRandomUrl_cache_hit (rand : Nat → Nat → Nat) (st : ClientState)
    (cat u : String) (hcat : cat = "h" ∨ cat = "v")
    (hc : countOf st cat ≠ 0) (hu : sessionOf st cat = some u)
    (hne : u ≠ "") :
    getRandomUrl rand st cat = (u, st) := by
  rcases hcat with rfl | rfl
  · rw [countOf_h] at hc
    rw [sessionOf_h] at hu
    rw [getRandomUrl_h_eq, if_neg hc,
      if_pos (cacheTruthy_some u hne _ hu), hu]
    rfl
  · rw [countOf_v] at hc
    rw [sessionOf_v] at hu
    rw [getRandomUrl_v_eq, if_neg hc,
      if_pos (cacheTruthy_some u hne _ hu), hu]
    rfl

/-- A `getRandomUrl` call never changes the counts or the domain baked
into the client state. -/
theorem getRandomUrl_config_fixed (rand : Nat → Nat → Nat)
    (st : ClientState) (t : String) :
    (getRandomUrl rand st t).2.hCount = st.hCount
    ∧ (getRandomUrl rand st t).2.vCount = st.vCount
    ∧ (getRandomUrl rand st t).2.domain = st.domain := by
  simp only [getRandomUrl]
  split_ifs <;> simp

/-- The first call for a category with non-zero count leaves that
category's session cache holding exactly the returned string, which is
non-empty. -/
theorem getRandomUrl_first (rand : Nat → Nat → Nat) (st : ClientState)
    (cat : String) (hcat : cat = "h" ∨ cat = "v")
    (hc : countOf st cat ≠ 0) (u : String) (st₁ : ClientState)
    (hcall : getRandomUrl rand st cat = (u, st₁)) :
    sessionOf st₁ cat = some u ∧ u ≠ "" := by
  rcases hcat with rfl | rfl
  · rw [countOf_h] at hc
    rw [getRandomUrl_h_eq, if_neg hc] at hcall
    by_cases htr : cacheTruthy st.sessionRandomH
    · rw [if_pos htr] at hcall
      rcases hcache : st.sessionRandomH with _ | s
      · rw [hcache] at htr
        simp [cacheTruthy] at htr
      · have hs : s ≠ "" := by
          rw [hcache] at htr
          simpa [cacheTruthy] using htr
        rw [hcache] at hcall
        rw [Prod.mk.injEq] at hcall
        obtain ⟨h1, h2⟩ := hcall
        subst h2
        refine ⟨?_, ?_⟩
        · rw [sessionOf_h, hcache, ← h1]
          rfl
        · rw [← h1]
          exact fun hcon => hs (by simpa using hcon)
    · rw [if_neg htr, Prod.mk.injEq] at hcall
      obtain ⟨h1, h2⟩ := hcall
      subst h2
      refine ⟨by rw [sessionOf_h, h1], ?_⟩
      rw [← h1]
      exact append_webp_ne_empty _
  · rw [countOf_v] at hc
    rw [getRandomUrl_v_eq, if_neg hc] at hcall
    by_cases htr : cacheTruthy st.sessionRandomV
    · rw [if_pos htr] at hcall
      rcases hcache : st.sessionRandomV with _ | s
      · rw [hcache] at htr
        simp [cacheTruthy] at htr
      · have hs : s ≠ "" := by
          rw [hcache] at htr
          simpa [cacheTruthy] using htr
        rw [hcache] at hcall
        rw [Prod.mk.injEq] at hcall
        obtain ⟨h1, h2⟩ := hcall
        subst h2
        refine ⟨?_, ?_⟩
        · rw [sessionOf_v, hcache, ← h1]
          rfl
        · rw [← h1]
          exact fun hcon => hs (by simpa using hcon)
    · rw [if_neg htr, Prod.mk.injEq] at hcall
      obtain ⟨h1, h2⟩ := hcall
      subst h2
      refine ⟨by rw [sessionOf_v, h1], ?_⟩
      rw [← h1]
      exact append_webp_ne_empty _

/-- Once a category's session cache holds a non-empty string, no call —
for any argument whatsoever — changes that slot. -/
theorem getRandomUrl_preserves_session (rand : Nat → Nat → Nat)
    (st : ClientState) (t cat u : String)
    (hcat : cat = "h" ∨ cat = "v") (hu : sessionOf st cat = some u)
    (hne : u ≠ "") :
    sessionOf (getRandomUrl rand st t).2 cat = some u := by
  by_cases ht : t = "h"
  · subst ht
    rw [getRandomUrl_h_eq]
    rcases hcat with rfl | rfl
    · rw [sessionOf_h] at hu ⊢
      rw [if_pos (cacheTruthy_some u hne _ hu)]
      by_cases h0 : st.hCount = 0 <;> simp [h0, hu]
    · rw [sessionOf_v] at hu ⊢
      by_cases h0 : st.hCount = 0
      · simp [h0, hu]
      · by_cases htr : cacheTruthy st.sessionRandomH <;> simp [h0, htr, hu]
  · by_cases htv : t = "v"
    · subst htv
      rw [getRandomUrl_v_eq]
      rcases hcat with rfl | rfl
      · rw [sessionOf_h] at hu ⊢
        by_cases h0 : st.vCount = 0
        · simp [h0, hu]
        · by_cases htr : cacheTruthy st.sessionRandomV <;> simp [h0, htr, hu]
      · rw [sessionOf_v] at hu ⊢
        rw [if_pos (cacheTruthy_some u hne _ hu)]
        by_cases h0 : st.vCount = 0 <;> simp [h0, hu]
    · rw [getRandomUrl_other_eq rand st t ht htv]
      rcases hcat with rfl | rfl
      · rw [sessionOf_h] at hu
        by_cases hp : t ∈ protoProps <;> simp [hp, sessionOf_h, hu]
      · rw [sessionOf_v] at hu
        by_cases hp : t ∈ protoProps <;> simp [hp, sessionOf_v, hu]

/-- Along any sequence of calls from a state whose cache for `cat` holds
the non-empty string `u` and whose count for `cat` is non-zero, every call
with argument `cat` returns `u`. -/
theorem runCalls_stable (rand : Nat → Nat → Nat) (cat u : String)
    (hcat : cat = "h" ∨ cat = "v") :
    ∀ (ts : List String) (st : ClientState),
      sessionOf st cat = some u → u ≠ "" → countOf st cat ≠ 0 →
      ∀ p ∈ (runCalls rand st ts).1, p.1 = cat → p.2 = u := by
  intro ts
  induction ts with
  | nil =>
    intro st _ _ _ p hp
    simp [runCalls] at hp
  | cons t ts ih =>
    intro st hu hne hc p hp hpc
    simp only [runCalls] at hp
    rcases List.mem_cons.mp hp with h | h
    · have h1 : p.1 = t := by rw [h]
      have h2 : p.2 = (getRandomUrl rand st t).1 := by rw [h]
      rw [h1] at hpc
      subst hpc
      rw [h2, getRandomUrl_cache_hit rand st t u hcat hc hu hne]
    · refine ih (getRandomUrl rand st t).2
        (getRandomUrl_preserves_session rand st t cat u hcat hu hne) hne
        ?_ p h hpc
      rcases hcat with rfl | rfl
      · rw [countOf_h] at hc ⊢
        rw [(getRandomUrl_config_fixed rand st t).1]
        exact hc
      · rw [countOf_v] at hc ⊢
        rw [(getRandomUrl_config_fixed rand st t).2.1]
        exact hc

/-- C3: in the generated client script, once the first `getRandomUrl`
call for a category with non-zero count has returned a URL, every
subsequent call for that category in the same script instance returns
exactly that string, whatever other calls are interleaved. -/
theorem client_session_cache_stable (rand : Nat → Nat → Nat)
    (st : ClientState) (cat : String) (hcat : cat = "h" ∨ cat = "v")
    (hc : countOf st cat ≠ 0) (u : String) (st₁ : ClientState)
    (hfirst : getRandomUrl rand st cat = (u, st₁)) (ts : List String) :
    ∀ p ∈ (runCalls rand st₁ ts).1, p.1 = cat → p.2 = u := by
  obtain ⟨hcache, hne⟩ := getRandomUrl_first rand st cat hcat hc u st₁ hfirst
  have hc₁ : countOf st₁ cat ≠ 0 := by
    rcases hcat with rfl | rfl
    · rw [countOf_h] at hc ⊢
      have hfix := (getRandomUrl_config_fixed rand st "h").1
      rw [hfirst] at hfix
      rw [hfix]
      exact hc
    · rw [countOf_v] at hc ⊢
      have hfix := (getRandomUrl_config_fixed rand st "v").2.1
      rw [hfirst] at hfix
      rw [hfix]
      exact hc
  exact runCalls_stable rand cat u hcat ts st₁ hcache hne hc₁

/-- Witness for `client_session_cache_stable`: counts `{h := 3, v := 2}`,
first call for `h` draws `h/0.webp`, and the three later `h` calls in the
mixed call sequence all return it. -/
theorem client_session_cache_stable_witness :
    (("h" : String) = "h" ∨ ("h" : String) = "v")
    ∧ countOf (clientInit 3 2 "") "h" ≠ 0
    ∧ getRandomUrl (fun k n => k % n) (clientInit 3 2 "") "h"
        = ("h/0.webp",
           { hCount := 3, vCount := 2, domain := ""
             sessionRandomH := some "h/0.webp", sessionRandomV := none
             draws := 1 })
    ∧ ∀ p ∈ (runCalls (fun k n => k % n)
          { hCount := 3, vCount := 2, domain := ""
            sessionRandomH := some "h/0.webp", sessionRandomV := none
            draws := 1 }
          ["v", "h", "x", "h", "v", "h"]).1, p.1 = "h" → p.2 = "h/0.webp" :=
  ⟨Or.inl rfl, by decide, by decide,
   client_session_cache_stable (fun k n => k % n) (clientInit 3 2 "") "h"
     (Or.inl rfl) (by decide) "h/0.webp"
     { hCount := 3, vCount := 2, domain := ""
       sessionRandomH := some "h/0.webp", sessionRandomV := none
       draws := 1 }
     (by decide) ["v", "h", "x", "h", "v", "h"]⟩

/-- C4: when the count looked up for the requested category is zero,
`getRandomUrl` returns the empty string with the state — session caches
and draw counter included — completely unchanged, and the public entry
points inherit this behavior for their category. -/
theorem client_zero_count_empty (rand : Nat → Nat → Nat)
    (st : ClientState) :
    (∀ t, lookupCounts st t = JSVal.num 0 →
        getRandomUrl rand st t = ("", st))
    ∧ (st.hCount = 0 → getRandomPicH rand st = ("", st))
    ∧ (st.vCount = 0 → getRandomPicV rand st = ("", st)) := by
  have base : ∀ t, lookupCounts st t = JSVal.num 0 →
      getRandomUrl rand st t = ("", st) := by
    intro t hz
    simp [getRandomUrl, hz]
  refine ⟨base, ?_, ?_⟩
  · intro hh
    exact base "h" (by simp [lookupCounts, hh])
  · intro hv
    exact base "v" (by simp [lookupCounts, hv])

/-- Witness for `client_zero_count_empty`: with counts `{h := 3, v := 0}`
the vertical entry point returns the empty string and touches nothing. -/
theorem client_zero_count_empty_witness :
    getRandomPicV (fun _ _ => 0) (clientInit 3 0 "")
      = ("", clientInit 3 0 "") :=
  (client_zero_count_empty (fun _ _ => 0) (clientInit 3 0 "")).2.2 rfl

/-- C10 (amended): for an argument that is neither an own key of the
counts object nor a property name inherited from `Object.prototype`,
`getRandomUrl` returns the empty string without touching the state. -/
theorem client_unknown_category_empty (rand : Nat → Nat → Nat)
    (st : ClientState) (t : String) (h1 : t ≠ "h") (h2 : t ≠ "v")
    (h3 : t ∉ protoProps) :
    getRandomUrl rand st t = ("", st) := by
  simp [getRandomUrl, lookupCounts, h1, h2, h3]

/-- Witness for `client_unknown_category_empty` at the argument `"x"`. -/
theorem client_unknown_category_empty_witness :
    getRandomUrl (fun _ _ => 0) (clientInit 3 2 "") "x"
      = ("", clientInit 3 2 "") :=
  client_unknown_category_empty (fun _ _ => 0) (clientInit 3 2 "") "x"
    (by decide) (by decide) (by decide)

/-- C10 counterexample: `"constructor"` is not a key of the counts object,
yet — because JavaScript property lookup falls through to
`Object.prototype`, whose `constructor` property is truthy — the call
returns the non-empty string `"constructor/NaN.webp"` instead of the
empty string. -/
theorem client_prototype_key_nonempty :
    (getRandomUrl (fun _ _ => 0) (clientInit 3 2 "") "constructor").1
        = "constructor/NaN.webp"
    ∧ (getRandomUrl (fun _ _ => 0) (clientInit 3 2 "") "constructor").1 ≠ ""
    ∧ ("constructor" : String) ≠ "h" ∧ ("constructor" : String) ≠ "v" := by
  have h1 : (getRandomUrl (fun _ _ => 0) (clientInit 3 2 "") "constructor").1
      = "constructor/NaN.webp" := by decide
  exact ⟨h1, by rw [h1]; decide, by decide, by decide⟩

/-- C9: for a fixed source tree, the per-category manifest counts are the
same for any two runs — whatever random choices the two shuffles make and
whatever transcodes succeed in each run. -/
theorem manifest_counts_independent_of_randomness
    (rndH rndV rndH' rndV' : Nat → Nat) (success success' : String → Bool)
    (dirH dirV : Except String (List String)) (now now' : String) :
    (mainManifest rndH rndV success dirH dirV now).h
        = (mainManifest rndH' rndV' success' dirH dirV now').h
    ∧ (mainManifest rndH rndV success dirH dirV now).v
        = (mainManifest rndH' rndV' success' dirH dirV now').v := by
  constructor <;>
    simp only [mainManifest, processImages_count]

/-- The fresh client state satisfies the URL-form invariant. -/
theorem clientInit_good (d : String) (h v : Nat) :
    GoodState d h v (clientInit h v d) := by
  refine ⟨rfl, rfl, rfl, ?_, ?_⟩ <;> intro u hu <;> simp [clientInit] at hu

/-- One call with category `"h"` preserves the URL-form invariant, and
when its result is non-empty the result is of the published form for
`"h"`. -/
theorem getRandomUrl_good_h (rand : Nat → Nat → Nat) (d : String)
    (h v : Nat) (st : ClientState) (hnd : normalizeDomain d ≠ "")
    (hg : GoodState d h v st) (hr : ∀ k n, 0 < n → rand k n < n) :
    GoodState d h v (getRandomUrl rand st "h").2
    ∧ ((getRandomUrl rand st "h").1 ≠ "" →
        GoodUrl d "h" h (getRandomUrl rand st "h").1) := by
  obtain ⟨hgd, hgh, hgv, hgH, hgV⟩ := hg
  rw [getRandomUrl_h_eq]
  by_cases h0 : st.hCount = 0
  · rw [if_pos h0]
    exact ⟨⟨hgd, hgh, hgv, hgH, hgV⟩, fun hcon => absurd rfl hcon⟩
  · by_cases htr : cacheTruthy st.sessionRandomH
    · rw [if_neg h0, if_pos htr]
      rcases hcache : st.sessionRandomH with _ | s
      · rw [hcache] at htr
        simp [cacheTruthy] at htr
      · exact ⟨⟨hgd, hgh, hgv, hgH, hgV⟩, fun _ => hgH s hcache⟩
    · rw [if_neg h0, if_neg htr]
      have hlt : rand st.draws st.hCount < h := by
        rw [← hgh]
        exact hr _ _ (Nat.pos_of_ne_zero h0)
      have hurl : GoodUrl d "h" h
          ((if st.domain = "" then "" else st.domain ++ "/") ++ "h" ++ "/"
            ++ toString (rand st.draws st.hCount) ++ ".webp") := by
        refine ⟨rand st.draws st.hCount, hlt, ?_⟩
        rw [hgd, if_neg hnd]
      refine ⟨⟨hgd, hgh, hgv, ?_, ?_⟩, fun _ => hurl⟩
      · intro u hu
        simp only [Option.some.injEq] at hu
        rw [← hu]
        exact hurl
      · intro u hu
        exact hgV u hu

/-- One call with category `"v"` preserves the URL-form invariant, and
when its result is non-empty the result is of the published form for
`"v"`. -/
theorem getRandomUrl_good_v (rand : Nat → Nat → Nat) (d : String)
    (h v : Nat) (st : ClientState) (hnd : normalizeDomain d ≠ "")
    (hg : GoodState d h v st) (hr : ∀ k n, 0 < n → rand k n < n) :
    GoodState d h v (getRandomUrl rand st "v").2
    ∧ ((getRandomUrl rand st "v").1 ≠ "" →
        GoodUrl d "v" v (getRandomUrl rand st "v").1) := by
  obtain ⟨hgd, hgh, hgv, hgH, hgV⟩ := hg
  rw [getRandomUrl_v_eq]
  by_cases h0 : st.vCount = 0
  · rw [if_pos h0]
    exact ⟨⟨hgd, hgh, hgv, hgH, hgV⟩, fun hcon => absurd rfl hcon⟩
  · by_cases htr : cacheTruthy st.sessionRandomV
    · rw [if_neg h0, if_pos htr]
      rcases hcache : st.sessionRandomV with _ | s
      · rw [hcache] at htr
        simp [cacheTruthy] at htr
      · exact ⟨⟨hgd, hgh, hgv, hgH, hgV⟩, fun _ => hgV s hcache⟩
    · rw [if_neg h0, if_neg htr]
      have hlt : rand st.draws st.vCount < v := by
        rw [← hgv]
        exact hr _ _ (Nat.pos_of_ne_zero h0)
      have hurl : GoodUrl d "v" v
          ((if st.domain = "" then "" else st.domain ++ "/") ++ "v" ++ "/"
            ++ toString (rand st.draws st.vCount) ++ ".webp") := by
        refine ⟨rand st.draws st.vCount, hlt, ?_⟩
        rw [hgd, if_neg hnd]
      refine ⟨⟨hgd, hgh, hgv, ?_, ?_⟩, fun _ => hurl⟩
      · intro u hu
        exact hgH u hu
      · intro u hu
        simp only [Option.some.injEq] at hu
        rw [← hu]
        exact hurl

/-- Along any run of calls with categories `"h"`/`"v"` from a state
satisfying the URL-form invariant, every non-empty result is of the
published form for its category. -/
theorem runCalls_good (rand : Nat → Nat → Nat) (d : String) (h v : Nat)
    (hnd : normalizeDomain d ≠ "") (hr : ∀ k n, 0 < n → rand k n < n) :
    ∀ (ts : List String), (∀ t ∈ ts, t = "h" ∨ t = "v") →
      ∀ (st : ClientState), GoodState d h v st →
      ∀ p ∈ (runCalls rand st ts).1, p.2 ≠ "" →
        ∃ idx : Nat, idx < (if p.1 = "h" then h else v)
          ∧ p.2 = normalizeDomain d ++ "/" ++ p.1 ++ "/" ++ toString idx
              ++ ".webp" := by
  intro ts
  induction ts with
  | nil =>
    intro _ st _ p hp
    simp [runCalls] at hp
  | cons t ts ih =>
    intro hts st hg p hp hpe
    simp only [runCalls] at hp
    rcases List.mem_cons.mp hp with hhd | htl
    · subst hhd
      rcases hts t (List.mem_cons_self t ts) with rfl | rfl
      · obtain ⟨idx, hlt, hform⟩ :=
          (getRandomUrl_good_h rand d h v st hnd hg hr).2 hpe
        exact ⟨idx, by simpa using hlt, by simpa using hform⟩
      · obtain ⟨idx, hlt, hform⟩ :=
          (getRandomUrl_good_v rand d h v st hnd hg hr).2 hpe
        exact ⟨idx, by simpa using hlt, by simpa using hform⟩
    · rcases hts t (List.mem_cons_self t ts) with rfl | rfl
      · exact ih (fun x hx => hts x (List.mem_cons_of_mem _ hx))
          (getRandomUrl rand st "h").2
          (getRandomUrl_good_h rand d h v st hnd hg hr).1 p htl hpe
      · exact ih (fun x hx => hts x (List.mem_cons_of_mem _ hx))
          (getRandomUrl rand st "v").2
          (getRandomUrl_good_v rand d h v st hnd hg hr).1 p htl hpe

/-- C5 (amended): for a configured non-empty domain prefix whose
normalization (one trailing separator stripped) is still non-empty, every
non-empty URL a client-script run emits has the form
`<domain>/<category>/<index>.webp` with exactly one separator between the
normalized domain and the category and with the index drawn from
`[0, count)` for that category. -/
theorem client_url_form (rand : Nat → Nat → Nat) (d : String) (h v : Nat)
    (_hd : d ≠ "") (hnd : normalizeDomain d ≠ "")
    (hr : ∀ k n, 0 < n → rand k n < n) (ts : List String)
    (hts : ∀ t ∈ ts, t = "h" ∨ t = "v") :
    ∀ p ∈ (runCalls rand (clientInit h v d) ts).1, p.2 ≠ "" →
      ∃ idx : Nat, idx < (if p.1 = "h" then h else v)
        ∧ p.2 = normalizeDomain d ++ "/" ++ p.1 ++ "/" ++ toString idx
            ++ ".webp" :=
  runCalls_good rand d h v hnd hr ts hts (clientInit h v d)
    (clientInit_good d h v)

/-- Witness for `client_url_form` at the domain
`https://cdn.example.com/`, counts `{h := 3, v := 2}` and a three-call
run. -/
theorem client_url_form_witness :
    ("https://cdn.example.com/" : String) ≠ ""
    ∧ normalizeDomain "https://cdn.example.com/" ≠ ""
    ∧ (∀ t ∈ (["h", "v", "h"] : List String), t = "h" ∨ t = "v")
    ∧ (∀ p ∈ (runCalls (fun k n => k % n)
          (clientInit 3 2 "https://cdn.example.com/") ["h", "v", "h"]).1,
        p.2 ≠ "" →
        ∃ idx : Nat, idx < (if p.1 = "h" then 3 else 2)
          ∧ p.2 = normalizeDomain "https://cdn.example.com/" ++ "/" ++ p.1
              ++ "/" ++ toString idx ++ ".webp") :=
  ⟨by decide, by decide, by decide,
   client_url_form (fun k n => k % n) "https://cdn.example.com/" 3 2
     (by decide) (by decide) (fun _ n hn => Nat.mod_lt _ hn)
     ["h", "v", "h"] (by decide)⟩

/-- C5 counterexample: the domain `"/"` is non-empty, yet after the single
trailing separator is stripped the script emits `h/0.webp` — a URL that
for no index is of the form `<stripped domain>/<category>/<index>.webp`. -/
theorem client_domain_slash_counterexample :
    ("/" : String) ≠ ""
    ∧ (getRandomUrl (fun _ _ => 0) (clientInit 3 0 "/") "h").1 = "h/0.webp"
    ∧ ∀ idx : Nat,
        (getRandomUrl (fun _ _ => 0) (clientInit 3 0 "/") "h").1
          ≠ normalizeDomain "/" ++ "/" ++ "h" ++ "/" ++ toString idx
              ++ ".webp" := by
  refine ⟨by decide, by decide, ?_⟩
  intro idx hcon
  have hd : some 'h' = some '/' := by
    calc some 'h'
        = ((getRandomUrl (fun _ _ => 0) (clientInit 3 0 "/") "h").1.data).head? := by decide
      _ = ((normalizeDomain "/" ++ "/" ++ "h" ++ "/" ++ toString idx
              ++ ".webp").data).head? := by rw [hcon]
      _ = some '/' := rfl
  exact absurd hd (by decide)

end RandomPic
